import Mathlib

/-!
Shallow embedding of the scoring pipeline of the `mm` news-analysis
repository (`src/analyzer/news_analyzer.py`, `src/scraper/news_fetcher.py`,
`src/config/settings.py`), together with theorems settling the frozen
claims C1..C10.

Modelling conventions:
* Python `str` is modelled by Lean `String`; `x in text` (substring test)
  by `inText`; `.lower()` by `pyLower`; `.strip()` by `pyStrip`;
  `.title()` by `pyTitle`.
* Python `float` arithmetic on the fixed decimal score constants is
  modelled by exact rational arithmetic (`ℚ`).  No claim in scope depends
  on binary floating-point rounding: every comparison in the source has a
  non-zero margin at the inputs the claims quantify over.
* Regular expressions are modelled by hand-written matchers that follow
  the concrete patterns of the source (documented at each definition),
  including scan order (leftmost match) and the greedy/backtracking
  behaviour relevant to those patterns.
* `datetime` values are modelled by their ordered content: an absolute
  timestamp becomes `Int` (missing dates `Option Int`), and the derived
  age `hours_old = (utcnow - published_date)/3600` becomes a `ℚ`
  parameter of the function that consumes it.
-/

/-! ### Text primitives -/

/-- Contiguous-sublist test on character lists: `ned` occurs inside `hay`.
Models Python `ned in hay` for strings. -/
def containsSub (hay ned : List Char) : Bool :=
  match hay with
  | [] => ned.isEmpty
  | _ :: t => ned.isPrefixOf hay || containsSub t ned

/-- Python `p in t` for strings `p`, `t`. -/
def inText (p t : String) : Bool := containsSub t.data p.data

/-- Python `s.lower()` (ASCII case mapping suffices for the fixed keyword
tables of the source). -/
def pyLower (s : String) : String := ⟨s.data.map Char.toLower⟩

/-- Python `s.strip()`: drop leading and trailing whitespace. -/
def pyStrip (s : String) : String :=
  ⟨((s.data.dropWhile Char.isWhitespace).reverse.dropWhile Char.isWhitespace).reverse⟩

/-- One step of Python `str.title()`: a letter is uppercased when the
previous character is not a letter, lowercased otherwise. -/
def pyTitleGo : Bool → List Char → List Char
  | _, [] => []
  | prevAlpha, c :: t =>
      (if c.isAlpha then (if prevAlpha then c.toLower else c.toUpper) else c)
        :: pyTitleGo c.isAlpha t

/-- Python `s.title()`. -/
def pyTitle (s : String) : String := ⟨pyTitleGo false s.data⟩

/-- Python `s[:n]`. -/
def pyTake (n : Nat) (s : String) : String := ⟨s.data.take n⟩

/-- Greedy run of decimal digits: returns `(digits, rest)`. -/
def digitsP : List Char → List Char × List Char
  | [] => ([], [])
  | c :: cs =>
      if c.isDigit then
        let (d, r) := digitsP cs
        (c :: d, r)
      else ([], c :: cs)

/-- Matcher for the regex fragment `\d+(?:\.\d+)?`: one or more digits with
an optional single fractional part; returns the matched characters and the
rest.  Greedy matching of this fragment needs no backtracking because the
fragment is always followed by `\s*`/a unit word in the source patterns,
neither of which consumes digits. -/
def numberP (l : List Char) : Option (List Char × List Char) :=
  let (d, r) := digitsP l
  if d.isEmpty then none
  else
    match r with
    | '.' :: r2 =>
        let (d2, r3) := digitsP r2
        if d2.isEmpty then some (d, r) else some (d ++ '.' :: d2, r3)
    | _ => some (d, r)

/-- Numeric value of a digit list (base 10). -/
def digitsVal (l : List Char) : Nat :=
  l.foldl (fun n c => n * 10 + (c.toNat - Char.toNat '0')) 0

/-- Python `float(s)` restricted to the shapes the amount extractor can
capture (`\d+(?:\.\d+)?`): plain digit strings with an optional single
fractional part.  Any other shape is modelled as a parse failure (which the
source catches with a bare `except: pass`). -/
def parseFloat (s : String) : Option ℚ :=
  let (d, r) := digitsP s.data
  if d.isEmpty then none
  else
    match r with
    | [] => some (digitsVal d : ℚ)
    | '.' :: r2 =>
        let (d2, r3) := digitsP r2
        if d2.isEmpty ∨ ¬ r3.isEmpty then none
        else some ((digitsVal d : ℚ) + (digitsVal d2 : ℚ) / ((10 : ℚ) ^ d2.length))
    | _ => none

/-- Case-insensitive literal match (the amount patterns are compiled with
`re.IGNORECASE`; the literals below are all lowercase).  Returns the rest
of the input after the literal. -/
def litCI : List Char → List Char → Option (List Char)
  | [], l => some l
  | c :: cs, d :: ds => if d.toLower = c then litCI cs ds else none
  | _ :: _, [] => none

/-- Case-sensitive literal match (the company/investor patterns are
compiled without `re.IGNORECASE`). -/
def litCS : List Char → List Char → Option (List Char)
  | [], l => some l
  | c :: cs, d :: ds => if d = c then litCS cs ds else none
  | _ :: _, [] => none

/-- Regex `\s*`: drop leading whitespace. -/
def wsStar (l : List Char) : List Char := l.dropWhile Char.isWhitespace

/-- Regex `\s+`: at least one whitespace character; returns the consumed
run and the rest.  Greedy consumption is exact here because every context
following `\s+` in the source patterns starts with a non-whitespace
character. -/
def wsPlusC (l : List Char) : Option (List Char × List Char) :=
  match l with
  | c :: cs =>
      if c.isWhitespace then
        some (c :: cs.takeWhile Char.isWhitespace, cs.dropWhile Char.isWhitespace)
      else none
  | [] => none

/-! ### `NewsAnalyzer.__init__`: fixed tables
(`src/analyzer/news_analyzer.py` lines 19-29, 132-145, 223-231). -/

/-- Ordered list `self.funding_rounds`. -/
def funding_rounds : List String :=
  ["pre-seed", "seed", "series a", "series b", "series c", "series d",
   "bridge round", "ipo", "acquisition", "merger"]

/-- List `self.important_companies`. -/
def important_companies : List String :=
  ["openai", "anthropic", "google", "microsoft", "meta", "amazon",
   "apple", "nvidia", "tesla", "spacex", "deepmind", "hugging face",
   "stability ai", "midjourney", "runway", "character.ai", "perplexity"]

/-- Weighted AI keyword table `ai_weights` of `_calculate_relevance_score`
(dict literal; Python dicts preserve insertion order). -/
def ai_weights : List (String × ℚ) :=
  [("artificial intelligence", 2/10), ("ai", 15/100), ("machine learning", 2/10),
   ("deep learning", 15/100), ("neural network", 1/10), ("llm", 2/10),
   ("openai", 3/10), ("chatgpt", 25/100), ("gpt", 2/10), ("claude", 2/10),
   ("anthropic", 25/100), ("google ai", 2/10), ("microsoft ai", 2/10)]

/-- Weighted investment keyword table `investment_weights` of
`_calculate_relevance_score`. -/
def investment_weights : List (String × ℚ) :=
  [("funding", 3/10), ("investment", 25/100), ("venture capital", 3/10),
   ("series a", 35/100), ("series b", 35/100), ("series c", 35/100),
   ("ipo", 4/10), ("acquisition", 4/10), ("merger", 35/100),
   ("startup", 2/10), ("valuation", 25/100), ("raise", 3/10)]

/-- Category keyword table of `_categorize_news` (dict literal, insertion
order preserved). -/
def categories : List (String × List String) :=
  [("funding", ["funding", "investment", "raise", "round", "capital"]),
   ("acquisition", ["acquisition", "merger", "acquired", "bought"]),
   ("ipo", ["ipo", "public", "stock", "nasdaq", "nyse"]),
   ("product", ["launch", "release", "product", "feature", "model"]),
   ("partnership", ["partnership", "collaboration", "alliance", "deal"]),
   ("research", ["research", "paper", "study", "breakthrough", "discovery"]),
   ("regulation", ["regulation", "policy", "law", "government", "ban"])]

/-! ### Scorer -/

/-- Accumulation loop shared by both keyword passes of
`_calculate_relevance_score`: `for keyword, weight in table: if keyword in
text: score += weight`. -/
def addWeights (text : String) (table : List (String × ℚ)) (score : ℚ) : ℚ :=
  table.foldl (fun acc kw => if inText kw.1 text then acc + kw.2 else acc) score

/-- Embeds `_calculate_relevance_score` (lines 127-157): start from 0, add
the weight of every AI keyword present, then of every investment keyword
present, and return `min(score, 1.0)`. -/
def _calculate_relevance_score (text : String) : ℚ :=
  min (addWeights text investment_weights (addWeights text ai_weights 0)) 1

/-- Embeds `_calculate_importance_score` (lines 243-282).  The source takes
the partially-filled `analysis` dict plus the text; the dict fields it
reads are passed explicitly here.  Bonuses:
amount tier (0.4 billion / 0.3 ≥100 / 0.2 ≥50 / 0.1 otherwise, skipped
when the amount is absent or `float()` fails — the bare `except: pass`),
+0.3 for a known important company, the funding-round tier, and +0.2 when
the relevance score exceeds 0.8; the sum is clamped by `min(score, 1.0)`. -/
def _calculate_importance_score (funding_amount : Option String)
    (companies : List String) (funding_round : Option String)
    (relevance_score : ℚ) (text : String) : ℚ :=
  let s1 : ℚ :=
    match funding_amount with
    | none => 0
    | some fa =>
        match parseFloat fa with
        | none => 0
        | some amount =>
            if inText "billion" text || inText "b" fa then 4/10
            else if amount ≥ 100 then 3/10
            else if amount ≥ 50 then 2/10
            else 1/10
  let s2 : ℚ :=
    if companies.any (fun comp => important_companies.contains (pyLower comp)) then 3/10 else 0
  let s3 : ℚ :=
    if funding_round = some "ipo" ∨ funding_round = some "acquisition" ∨
        funding_round = some "merger" then 4/10
    else if funding_round = some "series c" ∨ funding_round = some "series d" then 3/10
    else if funding_round = some "series a" ∨ funding_round = some "series b" then 2/10
    else 0
  let s4 : ℚ := if relevance_score > 8/10 then 2/10 else 0
  min (s1 + s2 + s3 + s4) 1

/-- Embeds `_determine_urgency` (lines 284-302).  The source computes
`hours_old = (utcnow - published_date).total_seconds()/3600` when a date is
present; that derived age (in hours) is the `hoursOld` parameter here,
`none` when `news.get('published_date')` is absent. -/
def _determine_urgency (importance : ℚ) (hoursOld : Option ℚ) : String :=
  match hoursOld with
  | some h =>
      if h < 2 ∧ importance > 7/10 then "high"
      else if h < 6 ∧ importance > 5/10 then "medium"
      else if importance > 8/10 then "high"
      else if importance > 5/10 then "medium"
      else "low"
  | none =>
      if importance > 8/10 then "high"
      else if importance > 5/10 then "medium"
      else "low"

/-- Embeds `_calculate_overall_score` (lines 358-364):
`relevance*0.3 + importance*0.4 + (market_impact/5)*0.3`.  The source reads
the three values from the merged analysis dict with defaults
(`relevance_score`/`importance_score` default 0, `market_impact` default 3
when no LLM enrichment set it); the values read are passed explicitly. -/
def _calculate_overall_score (relevance importance market_impact : ℚ) : ℚ :=
  relevance * (3/10) + importance * (4/10) + market_impact / 5 * (3/10)

/-! ### Extractor: funding round (`_extract_funding_round`, lines 175-180) -/

/-- Loop body of `_extract_funding_round`: iterate the fixed list in order
and return the first round name occurring as a substring. -/
def findRound : List String → String → Option String
  | [], _ => none
  | r :: rest, text => if inText r text then some r else findRound rest text

/-- Embeds `_extract_funding_round`. -/
def _extract_funding_round (text : String) : Option String :=
  findRound funding_rounds text

/-! ### Extractor: funding amount (`_extract_funding_amount`, lines 159-173)

The four patterns (compiled with `re.IGNORECASE`) are
`\$(\d+(?:\.\d+)?)\s*(?:million|billion|m|b)`,
`(\d+(?:\.\d+)?)\s*(?:million|billion)\s*(?:dollars?|\$)`,
`raised\s+\$?(\d+(?:\.\d+)?)\s*(?:million|billion|m|b)` and
`funding\s+of\s+\$?(\d+(?:\.\d+)?)\s*(?:million|billion|m|b)`;
`re.findall` is called per pattern and the first capture of the first
pattern with any match is returned.  The matchers below are deterministic:
every point where the regexes could backtrack (`(?:\.\d+)?`, `\s*`/`\s+`,
`\$?`) is followed by a context that cannot consume the characters the
greedy step took, so greedy-without-backtracking is exact. -/

/-- Unit alternation `(?:million|billion|m|b)` (left-to-right). -/
def unitMB (l : List Char) : Option (List Char) :=
  match litCI "million".data l with
  | some r => some r
  | none =>
    match litCI "billion".data l with
    | some r => some r
    | none =>
      match litCI "m".data l with
      | some r => some r
      | none => litCI "b".data l

/-- Pattern 1 tried at one position. -/
def pat1At : List Char → Option String
  | '$' :: r0 =>
    (match numberP r0 with
     | none => none
     | some (cap, r1) =>
       match unitMB (wsStar r1) with
       | none => none
       | some _ => some ⟨cap⟩)
  | _ => none

/-- Pattern 2 tried at one position (`dollars?` needs only its stem
`dollar`; the optional `s` is last in the pattern). -/
def pat2At (l : List Char) : Option String :=
  match numberP l with
  | none => none
  | some (cap, r1) =>
    match (match litCI "million".data (wsStar r1) with
           | some r => some r
           | none => litCI "billion".data (wsStar r1)) with
    | none => none
    | some r2 =>
      match litCI "dollar".data (wsStar r2) with
      | some _ => some ⟨cap⟩
      | none =>
        match litCI "$".data (wsStar r2) with
        | some _ => some ⟨cap⟩
        | none => none

/-- Pattern 3 tried at one position. -/
def pat3At (l : List Char) : Option String :=
  match litCI "raised".data l with
  | none => none
  | some r0 =>
    match wsPlusC r0 with
    | none => none
    | some (_, r1) =>
      let r2 := match r1 with | '$' :: t => t | _ => r1
      match numberP r2 with
      | none => none
      | some (cap, r3) =>
        match unitMB (wsStar r3) with
        | none => none
        | some _ => some ⟨cap⟩

/-- Pattern 4 tried at one position. -/
def pat4At (l : List Char) : Option String :=
  match litCI "funding".data l with
  | none => none
  | some r0 =>
    match wsPlusC r0 with
    | none => none
    | some (_, r1) =>
      match litCI "of".data r1 with
      | none => none
      | some r2 =>
        match wsPlusC r2 with
        | none => none
        | some (_, r3) =>
          let r4 := match r3 with | '$' :: t => t | _ => r3
          match numberP r4 with
          | none => none
          | some (cap, r5) =>
            match unitMB (wsStar r5) with
            | none => none
            | some _ => some ⟨cap⟩

/-- Leftmost match: try the position matcher at every suffix, left to
right (the end-of-string position included); the first capture found is
the first element of `re.findall`. -/
def scanFirst (p : List Char → Option String) : List Char → Option String
  | [] => p []
  | l@(_ :: t) =>
    match p l with
    | some s => some s
    | none => scanFirst p t

/-- Embeds `_extract_funding_amount`. -/
def _extract_funding_amount (text : String) : Option String :=
  match scanFirst pat1At text.data with
  | some s => some s
  | none =>
    match scanFirst pat2At text.data with
    | some s => some s
    | none =>
      match scanFirst pat3At text.data with
      | some s => some s
      | none => scanFirst pat4At text.data

/-! ### Extractor: companies (`_extract_companies`, lines 182-203)

The four patterns (compiled WITHOUT `re.IGNORECASE`) are
`([A-Z][a-z]+(?:\s+[A-Z][a-z]+)*)\s+(?:inc|corp|ltd|llc)`,
`([A-Z][a-z]+(?:\s+[A-Z][a-z]+)*)\s+raised`,
`startup\s+([A-Z][a-z]+(?:\s+[A-Z][a-z]+)*)` and
`company\s+([A-Z][a-z]+(?:\s+[A-Z][a-z]+)*)`.
Greedy steps that cannot interfere with their context (`[a-z]+` before
whitespace, `\s+` before a letter) are deterministic; the one real
backtracking point — whether a `\s+`-separated capitalized word continues
the starred group or the pattern closes on the trailing literal — is
modelled exactly: extension is tried first (greedy star) and the close is
the fallback. -/

/-- Regex `[A-Z][a-z]+` (ASCII classes, as in Python): one capitalized
word; returns the word and the rest. -/
def capWord (l : List Char) : Option (List Char × List Char) :=
  match l with
  | c :: cs =>
      if c.isUpper then
        let low := cs.takeWhile Char.isLower
        if low.isEmpty then none
        else some (c :: low, cs.dropWhile Char.isLower)
      else none
  | [] => none

/-- Left-to-right alternation of case-sensitive literals. -/
def litAny : List (List Char) → List Char → Option (List Char)
  | [], _ => none
  | lit :: rest, l =>
    match litCS lit l with
    | some r => some r
    | none => litAny rest l

/-- Continuation of `(?:\s+[A-Z][a-z]+)*\s+(?:lits)` after an initial
capitalized word: consume `\s+`, then greedily try to extend the captured
word sequence, falling back to closing on one of the trailing literals.
The whitespace run belongs to the capture on extension and is outside it
on close, as in the source patterns.  `fuel` bounds the recursion; the
initial call passes more fuel than the input length, so fuel exhaustion is
unreachable (every extension consumes at least two characters). -/
def capExtLit (lits : List (List Char)) : Nat → List Char → List Char →
    Option (String × List Char)
  | 0, _, _ => none
  | fuel+1, acc, l =>
    match wsPlusC l with
    | none => none
    | some (w, r1) =>
      match (match capWord r1 with
             | some (cw, r2) => capExtLit lits fuel (acc ++ w ++ cw) r2
             | none => none) with
      | some res => some res
      | none =>
        match litAny lits r1 with
        | some r2 => some (⟨acc⟩, r2)
        | none => none

/-- Patterns 1 and 2 tried at one position: a capitalized word sequence
followed by `\s+` and one of the given literals. -/
def pc12At (lits : List (List Char)) (l : List Char) : Option (String × List Char) :=
  match capWord l with
  | none => none
  | some (w, r) => capExtLit lits (r.length + 1) w r

/-- Greedy extension `(?:\s+[A-Z][a-z]+)*` with nothing after it
(patterns 3 and 4): extend while possible. -/
def capMaxExt : Nat → List Char → List Char → List Char × List Char
  | 0, acc, l => (acc, l)
  | fuel+1, acc, l =>
    match wsPlusC l with
    | none => (acc, l)
    | some (w, r1) =>
      match capWord r1 with
      | none => (acc, l)
      | some (cw, r2) => capMaxExt fuel (acc ++ w ++ cw) r2

/-- Patterns 3 and 4 tried at one position: a lowercase trigger literal,
`\s+`, then the captured capitalized word sequence. -/
def pcPrefixAt (lit : List Char) (l : List Char) : Option (String × List Char) :=
  match litCS lit l with
  | none => none
  | some r0 =>
    match wsPlusC r0 with
    | none => none
    | some (_, r1) =>
      match capWord r1 with
      | none => none
      | some (w, r2) =>
        let (ext, r3) := capMaxExt r2.length [] r2
        some (⟨w ++ ext⟩, r3)

/-- Pattern `([A-Z][a-z]+(?:\s+[A-Z][a-z]+)*)\s+(?:inc|corp|ltd|llc)`. -/
def company_pattern1 (l : List Char) : Option (String × List Char) :=
  pc12At ["inc".data, "corp".data, "ltd".data, "llc".data] l

/-- Pattern `([A-Z][a-z]+(?:\s+[A-Z][a-z]+)*)\s+raised`. -/
def company_pattern2 (l : List Char) : Option (String × List Char) :=
  pc12At ["raised".data] l

/-- Pattern `startup\s+([A-Z][a-z]+(?:\s+[A-Z][a-z]+)*)`. -/
def company_pattern3 (l : List Char) : Option (String × List Char) :=
  pcPrefixAt "startup".data l

/-- Pattern `company\s+([A-Z][a-z]+(?:\s+[A-Z][a-z]+)*)`. -/
def company_pattern4 (l : List Char) : Option (String × List Char) :=
  pcPrefixAt "company".data l

/-- Scan of `re.findall`: try the position matcher at every position, left
to right, collecting captures and resuming after each match end (all four
patterns consume at least one character per match). -/
def findAllCaps (p : List Char → Option (String × List Char)) :
    Nat → List Char → List String
  | 0, _ => []
  | fuel+1, l =>
    match p l with
    | some (cap, rest) => cap :: findAllCaps p fuel rest
    | none =>
      match l with
      | [] => []
      | _ :: t => findAllCaps p fuel t

/-- Embeds `_extract_companies`: known-company substring hits (title-cased)
first, then the four regex passes, then `list(set(companies))`.  Python's
set iteration order is unspecified, so the final duplicate collapse is
modelled by `List.dedup`; every claim about this function depends only on
membership. -/
def _extract_companies (text : String) : List String :=
  let known := (important_companies.filter (fun c => inText c text)).map pyTitle
  let regexHits :=
    findAllCaps company_pattern1 (text.data.length + 1) text.data ++
    findAllCaps company_pattern2 (text.data.length + 1) text.data ++
    findAllCaps company_pattern3 (text.data.length + 1) text.data ++
    findAllCaps company_pattern4 (text.data.length + 1) text.data
  (known ++ regexHits).dedup

/-! ### Scorer: categorization (`_categorize_news`, lines 221-241) -/

/-- Embeds `_categorize_news`: per-category keyword hit counts, keeping
only positive scores (dict insertion order preserved); Python
`max(category_scores, key=category_scores.get)` returns the first key
attaining the maximum, modelled by a fold that replaces the best only on a
strictly greater score; `"general"` when no keyword matched. -/
def _categorize_news (text : String) : String :=
  let category_scores :=
    (categories.map (fun p => (p.1, (p.2.filter (fun k => inText k text)).length))).filter
      (fun p => 0 < p.2)
  match category_scores with
  | [] => "general"
  | h :: t => (t.foldl (fun best p => if best.2 < p.2 then p else best) h).1

/-! ### `_basic_analysis` (lines 85-125) -/

/-- Fields of the per-item analysis dict.  `_basic_analysis` fills the
local fields and leaves the LLM fields empty; enrichment (when any)
overwrites the LLM fields, and `overall_score` is assigned afterwards by
`analyze_single_news`.  The `investors` entry is not modelled: no claim in
scope mentions `_extract_investors`, and no other analyzer code reads the
entry. -/
structure Analysis where
  relevance_score : ℚ
  importance_score : ℚ
  funding_amount : Option String
  funding_round : Option String
  companies : List String
  category : String
  urgency : String
  key_points : List String
  ai_summary : Option String
  market_impact : Option ℚ
  trend_analysis : Option String
  risk_assessment : Option String
  overall_score : Option ℚ
deriving DecidableEq

/-- Input news item as read by the analyzer: the raw `title`, `summary`
and `content` strings, and the age in hours derived from
`published_date` (`none` when the date is absent, see
`_determine_urgency`). -/
structure NewsDoc where
  title : String
  summary : String
  content : String
  hoursOld : Option ℚ
deriving DecidableEq

/-- Text assembly of `_basic_analysis`: `title = title.lower()`,
`content = f"{summary} {content}".lower()`, `full_text = f"{title} {content}"`. -/
def full_text (news : NewsDoc) : String :=
  pyLower news.title ++ " " ++ pyLower (news.summary ++ " " ++ news.content)

/-- Embeds `_basic_analysis`: relevance, extraction, categorization,
importance and urgency, wired exactly as in the source. -/
def _basic_analysis (news : NewsDoc) : Analysis :=
  let text := full_text news
  let relevance := _calculate_relevance_score text
  let funding_amount := _extract_funding_amount text
  let funding_round := _extract_funding_round text
  let companies := _extract_companies text
  let category := _categorize_news text
  let importance :=
    _calculate_importance_score funding_amount companies funding_round relevance text
  { relevance_score := relevance
    importance_score := importance
    funding_amount := funding_amount
    funding_round := funding_round
    companies := companies
    category := category
    urgency := _determine_urgency importance news.hoursOld
    key_points := []
    ai_summary := none
    market_impact := none
    trend_analysis := none
    risk_assessment := none
    overall_score := none }

/-- The lowercased end-to-end scenario text of the spec. -/
def scenarioText : String :=
  "openai raised $100 million in series c funding led by microsoft ventures"

/-! ### NewsFetcher (`src/scraper/news_fetcher.py`)

`fetch_all_news` gathers one item list per configured source (a failed
source contributes `[]`), concatenates them, deduplicates, sorts by
`published_date` descending with missing dates lowest (`datetime.min`),
and truncates to `settings.MAX_NEWS_PER_FETCH`.  The per-source fetching
is network I/O outside the embedding; the function below takes the list
of per-source result lists as input. -/

/-- Raw news item as built by `_parse_news_entry`; only the fields the
fetcher-level claims read are carried (`title`, `link`,
`published_date`), plus `summary` so that distinct items with equal keys
stay distinguishable, as dicts are in the source. -/
structure RawItem where
  title : String
  link : String
  summary : String
  published_date : Option Int
deriving DecidableEq

/-- Title normalization of `_deduplicate_news`:
`news.get('title', '').lower().strip()`. -/
def normTitle (s : String) : String := pyStrip (pyLower s)

/-- Loop of `_deduplicate_news` (lines 165-181): the two `seen` sets are
modelled as lists with membership; an item is appended (and its keys
recorded) only when its link is not in `seen_urls` AND its normalized
title is not in `seen_titles`. -/
def dedupGo (seen_urls seen_titles : List String) : List RawItem → List RawItem
  | [] => []
  | news :: rest =>
    let url := news.link
    let title := normTitle news.title
    if url ∉ seen_urls ∧ title ∉ seen_titles then
      news :: dedupGo (url :: seen_urls) (title :: seen_titles) rest
    else
      dedupGo seen_urls seen_titles rest

/-- Embeds `_deduplicate_news`. -/
def _deduplicate_news (l : List RawItem) : List RawItem := dedupGo [] [] l

/-- `Settings.MAX_NEWS_PER_FETCH` (`src/config/settings.py` line 73). -/
def MAX_NEWS_PER_FETCH : Nat := 50

/-- Sort key of `fetch_all_news`:
`x.get('published_date', datetime.min)`; the missing-date default
`datetime.min` is the bottom element. -/
def sortKey (n : RawItem) : WithBot Int :=
  match n.published_date with
  | some d => (d : WithBot Int)
  | none => ⊥

/-- Order for the descending stable sort
`all_news.sort(key=..., reverse=True)`: `a` may stay before `b` when its
key is not smaller.  Python `list.sort` is stable; `List.insertionSort`
with this total preorder is the same stable descending sort. -/
def dateGE (a b : RawItem) : Prop := sortKey b ≤ sortKey a

instance : DecidableRel dateGE :=
  fun a b => inferInstanceAs (Decidable (sortKey b ≤ sortKey a))

instance : IsTotal RawItem dateGE :=
  ⟨fun a b => le_total (sortKey b) (sortKey a)⟩

instance : IsTrans RawItem dateGE :=
  ⟨fun _ _ _ hab hbc => le_trans hbc hab⟩

/-- Merged, deduplicated and date-sorted list of `fetch_all_news`
(lines 28-48 before the final truncation). -/
def sorted_deduped (results : List (List RawItem)) : List RawItem :=
  List.insertionSort dateGE (_deduplicate_news results.flatten)

/-- Embeds `fetch_all_news` (line 49): `return all_news[:settings.MAX_NEWS_PER_FETCH]`. -/
def fetch_all_news (results : List (List RawItem)) : List RawItem :=
  (sorted_deduped results).take MAX_NEWS_PER_FETCH

/-! ### Trend aggregation (`get_trending_topics`, `news_analyzer.py`
lines 366-400)

The per-item inputs read by the aggregator are
`news.get('analysis', {}).get('companies', [])` and
`...get('category', 'general')`; the analyzed items carry both (every
analyzer output sets them), plus the fields needed to state the claims.
The `topics` dict (insertion-ordered, as Python dicts are) is modelled by
an association list updated in place; `sorted(..., reverse=True)` is the
stable descending sort, modelled by `List.insertionSort` with a total
preorder as for the fetcher. -/

/-- Analyzed item as consumed by `get_trending_topics`. -/
structure AnItem where
  title : String
  published_date : Option Int
  companies : List String
  category : String
deriving DecidableEq

/-- Value of one `topics[key]` dict: running count, the `'category'`
label (`'company'` or `'topic'`, set at creation, called `tcat` here to
avoid clashing with the item field), and the appended contributing items. -/
structure TopicData where
  count : Nat
  tcat : String
  latest_news : List AnItem
deriving DecidableEq

/-- One output topic summary. -/
structure Trend where
  topic : String
  count : Nat
  tcat : String
  latest_news : List AnItem
deriving DecidableEq

/-- One increment `topics[k]['count'] += 1; topics[k]['latest_news'].append(n)`,
creating `{'count': 0, 'category': label, 'latest_news': []}` first when
the key is absent (so a fresh key lands at the end, as in an
insertion-ordered dict). -/
def bumpTopic (label : String) (n : AnItem) (k : String) :
    List (String × TopicData) → List (String × TopicData)
  | [] => [(k, ⟨1, label, [n]⟩)]
  | (k2, d) :: rest =>
    if k = k2 then (k2, ⟨d.count + 1, d.tcat, d.latest_news ++ [n]⟩) :: rest
    else (k2, d) :: bumpTopic label n k rest

/-- Processing of one item: one bump per extracted company name (label
`'company'`), then one bump for the synthetic key `category_<category>`
(label `'topic'`). -/
def itemStep (acc : List (String × TopicData)) (n : AnItem) :
    List (String × TopicData) :=
  bumpTopic "topic" n ("category_" ++ n.category)
    (n.companies.foldl (fun a c => bumpTopic "company" n c a) acc)

/-- The `topics` dict after the counting loop. -/
def collectTopics (l : List AnItem) : List (String × TopicData) :=
  l.foldl itemStep []

/-- Order for `sorted(trending, key=lambda x: x['count'], reverse=True)`. -/
def countGE (a b : Trend) : Prop := b.count ≤ a.count

instance : DecidableRel countGE :=
  fun a b => inferInstanceAs (Decidable (b.count ≤ a.count))

instance : IsTotal Trend countGE := ⟨fun a b => Nat.le_total b.count a.count⟩

instance : IsTrans Trend countGE := ⟨fun _ _ _ hab hbc => le_trans hbc hab⟩

/-- Embeds `get_trending_topics`: keep topics with `count >= 2`, carry
`latest_news[:3]`, sort by count descending (stable) and truncate to the
top 10. -/
def get_trending_topics (l : List AnItem) : List Trend :=
  let topics := collectTopics l
  let trending := (topics.filter (fun p => 2 ≤ p.2.count)).map
    (fun p => ⟨p.1, p.2.count, p.2.tcat, p.2.latest_news.take 3⟩)
  (List.insertionSort countGE trending).take 10

/-- Number of increments item `n` contributes to key `k`: one per
occurrence of `k` in its companies list, plus one when `k` is the item's
synthetic category key. -/
def keyMult (k : String) (n : AnItem) : Nat :=
  n.companies.count k + (if "category_" ++ n.category = k then 1 else 0)

/-- Total count key `k` accumulates over a batch. -/
def keyCount (k : String) (l : List AnItem) : Nat := (l.map (keyMult k)).sum

/-- The items appended to `topics[k]['latest_news']` over a batch, in
order (an item appears once per increment it contributes). -/
def contribList (k : String) (l : List AnItem) : List AnItem :=
  l.flatMap (fun n => List.replicate (keyMult k n) n)

/-- Dict lookup in the association list. -/
def findTopic (k : String) : List (String × TopicData) → Option TopicData
  | [] => none
  | (k2, d) :: rest => if k = k2 then some d else findTopic k rest

/-- Invariant tying the `topics` dict to counting functions: every key
reads back its intended count and contribution list, and absent keys have
none. -/
def topicsInv (acc : List (String × TopicData)) (C : String → Nat)
    (L : String → List AnItem) : Prop :=
  ∀ k, match findTopic k acc with
       | none => C k = 0 ∧ L k = []
       | some d => d.count = C k ∧ d.latest_news = L k

/-- Claim C6 scenario batch: three items mentioning only OpenAI plus one
mentioning only a company that occurs once. -/
def demoBatch : List AnItem :=
  [⟨"n1", some 1, ["OpenAI"], "general"⟩, ⟨"n2", some 2, ["OpenAI"], "general"⟩,
   ⟨"n3", some 3, ["OpenAI"], "general"⟩, ⟨"n4", some 4, ["Solo"], "general"⟩]

/-- Batch ordered oldest-first: four OpenAI items with ascending dates. -/
def oldFirstBatch : List AnItem :=
  [⟨"a", some 0, ["OpenAI"], "general"⟩, ⟨"b", some 1, ["OpenAI"], "general"⟩,
   ⟨"c", some 2, ["OpenAI"], "general"⟩, ⟨"d", some 3, ["OpenAI"], "general"⟩]

/-! ### Batch analyzer (`analyze_news_batch`, `analyze_single_news`,
`_ai_analysis`; `news_analyzer.py` lines 31-83 and 304-356)

The LLM call is external I/O; its observable outcomes at the merge point
are enumerated by `EnrichOutcome`, following the source's handlers: no
client configured (`ai_analysis = {}`), a successful `json.loads` reply
(five fields, with `market_impact` read via `.get('market_impact', 3)` —
the default is folded into the reply record), a non-JSON reply
(`{'ai_summary': ai_result[:200]}`), and a raised exception caught inside
`_ai_analysis` itself (returns `{}`).  An exception anywhere else in
`analyze_single_news` is caught by its own handler, which returns the
bare input item; `ItemOutcome.localError` models that case.
`asyncio.gather(..., return_exceptions=True)` isolates tasks from each
other, and since `analyze_single_news` catches every exception, the
gathered results are never exceptions and never falsy (a processed item
always carries its analysis dict, and a bare returned item is a non-empty
dict), so the collection loop appends exactly one result per input item;
the groups of 5 are awaited sequentially (gather-then-apply), so the
observable batch result is the concatenation of the per-group result
lists, modelled by the take-5/drop-5 recursion. -/

/-- Parsed LLM reply fields stored by `_ai_analysis` on the
`json.loads` success path. -/
structure AIReply where
  ai_summary : String
  key_points : List String
  market_impact : ℚ
  trend_analysis : String
  risk_assessment : String
deriving DecidableEq

/-- Observable outcome of the optional enrichment step. -/
inductive EnrichOutcome
  | noClient
  | success (r : AIReply)
  | badJson (raw : String)
  | failure
deriving DecidableEq

/-- Outcome of one `analyze_single_news` task: either the analysis runs
(with some enrichment outcome) or an unexpected exception is caught by the
item-level handler. -/
inductive ItemOutcome
  | runs (e : EnrichOutcome)
  | localError
deriving DecidableEq

/-- Merge `{**basic_analysis, **ai_analysis}`: the dict `_ai_analysis`
returns is empty on `noClient` and on a caught exception, carries only a
truncated raw summary on a non-JSON reply, and carries the five reply
fields on success. -/
def mergeEnrichment (b : Analysis) : EnrichOutcome → Analysis
  | .noClient => b
  | .failure => b
  | .badJson raw => { b with ai_summary := some (pyTake 200 raw) }
  | .success r =>
      { b with
        ai_summary := some r.ai_summary
        key_points := r.key_points
        market_impact := some r.market_impact
        trend_analysis := some r.trend_analysis
        risk_assessment := some r.risk_assessment }

/-- Embeds `analyze_single_news`: local analysis, optional enrichment
merge, then `overall_score` from the merged dict (`market_impact`
defaulting to 3); on a caught exception the bare item is returned with no
analysis attached. -/
def analyze_single_news : ItemOutcome → NewsDoc → NewsDoc × Option Analysis
  | .localError, news => (news, none)
  | .runs e, news =>
      let basic := _basic_analysis news
      let merged := mergeEnrichment basic e
      let overall := _calculate_overall_score merged.relevance_score
        merged.importance_score (merged.market_impact.getD 3)
      (news, some { merged with overall_score := some overall })

/-- Embeds `analyze_news_batch`: groups of `batch_size = 5`, one result
appended per item of each group, groups processed in order. -/
def analyze_news_batch (jobs : List (ItemOutcome × NewsDoc)) :
    List (NewsDoc × Option Analysis) :=
  match jobs with
  | [] => []
  | j :: rest =>
      ((j :: rest).take 5).map (fun q => analyze_single_news q.1 q.2) ++
        analyze_news_batch ((j :: rest).drop 5)
termination_by jobs.length
decreasing_by simp; omega

/-! ### Claim C1 -/

theorem addWeights_nonneg (text : String) (table : List (String × ℚ))
    (hw : ∀ p ∈ table, 0 ≤ p.2) :
    ∀ acc : ℚ, 0 ≤ acc → 0 ≤ addWeights text table acc := by
  induction table with
  | nil => intro acc h; simpa [addWeights] using h
  | cons p t ih =>
      intro acc hacc
      have hp : 0 ≤ p.2 := hw p (by simp)
      have ht : ∀ q ∈ t, 0 ≤ q.2 := fun q hq => hw q (by simp [hq])
      simp only [addWeights, List.foldl_cons]
      by_cases h : inText p.1 text
      · simpa [addWeights, h] using ih ht (acc + p.2) (by positivity)
      · simpa [addWeights, h] using ih ht acc hacc

theorem ai_weights_nonneg : ∀ p ∈ ai_weights, 0 ≤ p.2 := by
  intro p hp
  simp only [ai_weights, List.mem_cons, List.not_mem_nil, or_false] at hp
  rcases hp with h | h | h | h | h | h | h | h | h | h | h | h | h <;>
    subst h <;> norm_num

theorem investment_weights_nonneg : ∀ p ∈ investment_weights, 0 ≤ p.2 := by
  intro p hp
  simp only [investment_weights, List.mem_cons, List.not_mem_nil, or_false] at hp
  rcases hp with h | h | h | h | h | h | h | h | h | h | h | h <;>
    subst h <;> norm_num

/-- C1: for every text input, `_calculate_relevance_score` returns a value
in [0, 1], and for every input (any extracted amount, company list, round
and relevance value, any text), `_calculate_importance_score` returns a
value in [0, 1]: both start from 0, only add non-negative fixed bonuses,
and clamp the sum with `min(score, 1.0)`. -/
theorem C1_scores_bounded :
    (∀ text : String,
      0 ≤ _calculate_relevance_score text ∧ _calculate_relevance_score text ≤ 1) ∧
    (∀ (funding_amount : Option String) (companies : List String)
        (funding_round : Option String) (relevance_score : ℚ) (text : String),
      0 ≤ _calculate_importance_score funding_amount companies funding_round
            relevance_score text ∧
      _calculate_importance_score funding_amount companies funding_round
            relevance_score text ≤ 1) := by
  constructor
  · intro text
    constructor
    · have h0 : (0:ℚ) ≤ addWeights text ai_weights 0 :=
        addWeights_nonneg text ai_weights ai_weights_nonneg 0 le_rfl
      have h1 : (0:ℚ) ≤ addWeights text investment_weights (addWeights text ai_weights 0) :=
        addWeights_nonneg text investment_weights investment_weights_nonneg _ h0
      exact le_min h1 (by norm_num)
    · exact min_le_right _ _
  · intro funding_amount companies funding_round relevance_score text
    have h1 : (0:ℚ) ≤
        (match funding_amount with
         | none => (0:ℚ)
         | some fa =>
             match parseFloat fa with
             | none => 0
             | some amount =>
                 if inText "billion" text || inText "b" fa then 4/10
                 else if amount ≥ 100 then 3/10
                 else if amount ≥ 50 then 2/10
                 else 1/10) := by
      split
      · norm_num
      · split
        · norm_num
        · split <;> [norm_num; split <;> [norm_num; split <;> norm_num]]
    have h2 : (0:ℚ) ≤
        (if companies.any (fun comp => important_companies.contains (pyLower comp))
         then (3:ℚ)/10 else 0) := by split <;> norm_num
    have h3 : (0:ℚ) ≤
        (if funding_round = some "ipo" ∨ funding_round = some "acquisition" ∨
            funding_round = some "merger" then (4:ℚ)/10
         else if funding_round = some "series c" ∨ funding_round = some "series d" then 3/10
         else if funding_round = some "series a" ∨ funding_round = some "series b" then 2/10
         else 0) := by split <;> [norm_num; split <;> [norm_num; split <;> norm_num]]
    have h4 : (0:ℚ) ≤ (if relevance_score > 8/10 then (2:ℚ)/10 else 0) := by
      split <;> norm_num
    constructor
    · exact le_min (by positivity) (by norm_num)
    · exact min_le_right _ _

/-! ### Claim C3 -/

/-- C3 counterexample: with `importance_score = 0.9` and a present
`published_date` making the item 3 hours old, `_determine_urgency` takes
the `hours_old < 6 and importance > 0.5` branch and returns `"medium"`,
not `"high"` — refuting "returns \"high\" whenever importanceScore = 0.9,
for every publishedDate value". -/
theorem C3_counterexample : _determine_urgency (9/10) (some 3) = "medium" := by
  norm_num [_determine_urgency]

/-- C3 amended: `_determine_urgency` at `importanceScore = 0.9` returns
`"high"` when `publishedDate` is absent, and, when a date is present,
returns `"high"` exactly when the age is below 2 hours or at least 6
hours, but `"medium"` when the age lies in [2, 6) hours; at
`importanceScore = 0.1` with no date it returns `"low"`. -/
theorem C3_urgency_amended :
    (∀ h : ℚ, _determine_urgency (9/10) (some h) =
      if h < 2 ∨ 6 ≤ h then "high" else "medium") ∧
    _determine_urgency (9/10) none = "high" ∧
    _determine_urgency (1/10) none = "low" := by
  refine ⟨fun h => ?_, by norm_num [_determine_urgency], by norm_num [_determine_urgency]⟩
  by_cases h2 : h < 2
  · simp only [_determine_urgency]
    rw [if_pos ⟨h2, by norm_num⟩, if_pos (Or.inl h2)]
  · by_cases h6 : h < 6
    · simp only [_determine_urgency]
      rw [if_neg (by tauto), if_pos ⟨h6, by norm_num⟩,
        if_neg (not_or.mpr ⟨h2, not_le.mpr h6⟩)]
    · simp only [_determine_urgency]
      rw [if_neg (by tauto), if_neg (by tauto), if_pos (by norm_num),
        if_pos (Or.inr (not_lt.mp h6))]

/-! ### Claim C2 -/

/-- C2 counterexample: the source parses the LLM reply with `json.loads`
and stores `parsed_result.get('market_impact', 3)` without validating the
1-5 range, and `_calculate_overall_score` applies no clamping.  Relevance 1
and importance 1 are reachable (the end-to-end scenario text drives both
to their clamp value, as computed here), and with an LLM-supplied
`market_impact` of 10 the overall score there is 1.3 > 1: the overall
score does not always lie in [0, 1] when an LLM reply supplies
`market_impact`. -/
theorem C2_counterexample :
    _calculate_relevance_score scenarioText = 1 ∧
    _calculate_importance_score (_extract_funding_amount scenarioText)
      (_extract_companies scenarioText) (_extract_funding_round scenarioText)
      (_calculate_relevance_score scenarioText) scenarioText = 1 ∧
    _calculate_overall_score 1 1 10 = 13/10 ∧
    ¬ _calculate_overall_score 1 1 10 ≤ 1 := by
  have hrel : _calculate_relevance_score scenarioText = 1 := by
    simp +decide [_calculate_relevance_score, addWeights, ai_weights,
      investment_weights, List.foldl]
    norm_num [min_def]
  have hpf : parseFloat "100" = some 100 := by
    simp +decide [parseFloat, digitsP, digitsVal, List.foldl]
  refine ⟨hrel, ?_, by norm_num [_calculate_overall_score],
    by norm_num [_calculate_overall_score]⟩
  rw [(by decide : _extract_funding_amount scenarioText = some "100"),
    (by decide : _extract_companies scenarioText = ["Openai", "Microsoft"]),
    (by decide : _extract_funding_round scenarioText = some "series c"), hrel]
  simp +decide [_calculate_importance_score, hpf]
  norm_num [min_def]

/-- C2 amended: the overall score `0.3*relevance + 0.4*importance +
0.3*(marketImpact/5)` lies in [0, 1] provided the market-impact value lies
in [0, 5] — which covers the default 3 used when no LLM enrichment
occurred and every in-range (1-5) LLM reply; the code does not clamp the
overall score, so only this bound keeps it in range (an out-of-range LLM
value escapes, see the counterexample). -/
theorem C2_overall_score_bounded (r i m : ℚ)
    (hr0 : 0 ≤ r) (hr1 : r ≤ 1) (hi0 : 0 ≤ i) (hi1 : i ≤ 1)
    (hm0 : 0 ≤ m) (hm1 : m ≤ 5) :
    0 ≤ _calculate_overall_score r i m ∧ _calculate_overall_score r i m ≤ 1 := by
  unfold _calculate_overall_score
  constructor
  · positivity
  · nlinarith

/-- C2 witness: the amended bound applied at relevance 0, importance 0 and
the default market impact 3. -/
theorem C2_overall_score_bounded_witness :
    0 ≤ _calculate_overall_score 0 0 3 ∧ _calculate_overall_score 0 0 3 ≤ 1 :=
  C2_overall_score_bounded 0 0 3 (by norm_num) (by norm_num) (by norm_num)
    (by norm_num) (by norm_num) (by norm_num)

/-! ### Claim C7 -/

theorem findRound_mem_first (rs : List String) (text : String) (r : String)
    (h : findRound rs text = some r) :
    r ∈ rs ∧ inText r text = true ∧
      ∀ r' ∈ rs, inText r' text = true →
        List.indexOf r rs ≤ List.indexOf r' rs := by
  induction rs with
  | nil => simp [findRound] at h
  | cons r0 rest ih =>
      by_cases h0 : inText r0 text
      · have hr : r = r0 := by
          simp only [findRound, h0, if_true, Option.some.injEq] at h
          exact h.symm
        subst hr
        exact ⟨by simp, h0, fun r' _ _ => by
          simp [List.indexOf_cons_self]⟩
      · simp only [findRound, h0, if_false] at h
        obtain ⟨hmem, hin, hfirst⟩ := ih h
        refine ⟨by simp [hmem], hin, ?_⟩
        intro r' hr' hin'
        have hr'ne : r' ≠ r0 := fun he => h0 (he ▸ hin')
        have hrne : r ≠ r0 := fun he => h0 (he ▸ hin)
        rcases List.mem_cons.mp hr' with he | hr'rest
        · exact absurd he hr'ne
        · rw [List.indexOf_cons_ne _ hrne.symm, List.indexOf_cons_ne _ hr'ne.symm]
          exact Nat.succ_le_succ (hfirst r' hr'rest hin')

/-- C7: `_extract_funding_round` returns the first element of the fixed
ordered round list occurring as a substring of the text (first match in
list order wins, not first match in text position), so the result is
always one of the fixed enumeration or `none`, a returned round always
occurs verbatim in the text (no partial match such as `"series a"` for a
text containing only `"series"`), and on `"series b announced at seed
event"` the result is `"seed"` (list order) although `"series b"` occurs
earlier in the text. -/
theorem C7_funding_round_first_in_list_order :
    (∀ text r, _extract_funding_round text = some r →
      r ∈ funding_rounds ∧ inText r text = true ∧
        ∀ r' ∈ funding_rounds, inText r' text = true →
          List.indexOf r funding_rounds ≤ List.indexOf r' funding_rounds) ∧
    (∀ text, inText "series a" text = false →
      _extract_funding_round text ≠ some "series a") ∧
    _extract_funding_round "series b announced at seed event" = some "seed" ∧
    _extract_funding_round "the tv series ended" = none := by
  refine ⟨fun text r h => findRound_mem_first funding_rounds text r h,
    fun text hno h => ?_, by decide, by decide⟩
  have := (findRound_mem_first funding_rounds text _ h).2.1
  rw [hno] at this
  exact Bool.false_ne_true this

/-- C7 witness: the theorem applied at the concrete text
`"series b announced at seed event"`, whose extracted round is `"seed"`,
placed no later in the fixed list than the textually earlier
`"series b"`; and at a text containing only the word `"series"`. -/
theorem C7_funding_round_witness :
    ("seed" ∈ funding_rounds ∧
      List.indexOf "seed" funding_rounds ≤ List.indexOf "series b" funding_rounds) ∧
    _extract_funding_round "the series premiere drew crowds" ≠ some "series a" := by
  have h := C7_funding_round_first_in_list_order.1 "series b announced at seed event"
    "seed" (by decide)
  exact ⟨⟨h.1, h.2.2 "series b" (by decide) (by decide)⟩,
    C7_funding_round_first_in_list_order.2.1 _ (by decide)⟩

/-! ### Claim C5 -/

/-- C5: on the lowercased scenario text, the amount extractor captures
`"100"`, the round extractor returns `"series c"`, the company extractor
includes `"Openai"`, categorization returns `"funding"`, and the
importance score computed from these extraction results (wired as in
`_basic_analysis`) is at least 0.5. -/
theorem C5_end_to_end :
    _extract_funding_amount scenarioText = some "100" ∧
    _extract_funding_round scenarioText = some "series c" ∧
    "Openai" ∈ _extract_companies scenarioText ∧
    _categorize_news scenarioText = "funding" ∧
    1/2 ≤ _calculate_importance_score (_extract_funding_amount scenarioText)
      (_extract_companies scenarioText) (_extract_funding_round scenarioText)
      (_calculate_relevance_score scenarioText) scenarioText := by
  have hamt : _extract_funding_amount scenarioText = some "100" := by decide
  have hcmp : _extract_companies scenarioText = ["Openai", "Microsoft"] := by decide
  have hrnd : _extract_funding_round scenarioText = some "series c" := by decide
  have hrel : _calculate_relevance_score scenarioText = 1 := by
    simp +decide [_calculate_relevance_score, addWeights, ai_weights,
      investment_weights, List.foldl]
    norm_num [min_def]
  have hpf : parseFloat "100" = some 100 := by
    simp +decide [parseFloat, digitsP, digitsVal, List.foldl]
  have himp : _calculate_importance_score (some "100") ["Openai", "Microsoft"]
      (some "series c") 1 scenarioText = 1 := by
    simp +decide [_calculate_importance_score, hpf]
    norm_num [min_def]
  refine ⟨hamt, hrnd, by rw [hcmp]; simp, by decide, ?_⟩
  rw [hamt, hcmp, hrnd, hrel, himp]
  norm_num

/-! ### Claim C9 -/

theorem litCS_rest_subset (lit : List Char) :
    ∀ l r, litCS lit l = some r → ∀ c ∈ r, c ∈ l := by
  induction lit with
  | nil =>
      intro l r h c hc
      simp only [litCS, Option.some.injEq] at h
      exact h ▸ hc
  | cons x xs ih =>
      intro l r h c hc
      match l with
      | [] => simp [litCS] at h
      | d :: ds =>
          simp only [litCS] at h
          by_cases hd : d = x
          · rw [if_pos hd] at h
            exact List.mem_cons_of_mem d (ih ds r h c hc)
          · rw [if_neg hd] at h
            cases h

theorem wsPlusC_rest_subset (l w r : List Char) (h : wsPlusC l = some (w, r)) :
    ∀ c ∈ r, c ∈ l := by
  match l with
  | [] => simp [wsPlusC] at h
  | d :: ds =>
      simp only [wsPlusC] at h
      by_cases hd : d.isWhitespace
      · rw [if_pos hd] at h
        have : r = ds.dropWhile Char.isWhitespace := by
          cases h; rfl
        intro c hc
        rw [this] at hc
        exact List.mem_cons_of_mem d ((List.dropWhile_suffix _).subset hc)
      · rw [if_neg hd] at h; cases h

theorem capWord_upper (l : List Char) (p : List Char × List Char)
    (h : capWord l = some p) : ∃ c ∈ l, c.isUpper = true := by
  match l with
  | [] => simp [capWord] at h
  | d :: ds =>
      simp only [capWord] at h
      by_cases hd : d.isUpper
      · exact ⟨d, by simp, hd⟩
      · rw [if_neg hd] at h; cases h

theorem pc12At_upper (lits : List (List Char)) (l : List Char)
    (p : String × List Char) (h : pc12At lits l = some p) :
    ∃ c ∈ l, c.isUpper = true := by
  unfold pc12At at h
  cases hw : capWord l with
  | none => rw [hw] at h; cases h
  | some q => exact capWord_upper l q hw

theorem pcPrefixAt_upper (lit : List Char) (l : List Char)
    (p : String × List Char) (h : pcPrefixAt lit l = some p) :
    ∃ c ∈ l, c.isUpper = true := by
  unfold pcPrefixAt at h
  cases h0 : litCS lit l with
  | none => simp [h0] at h
  | some r0 =>
      cases h1 : wsPlusC r0 with
      | none => simp [h0, h1] at h
      | some wr =>
          obtain ⟨wc, r1⟩ := wr
          cases h2 : capWord r1 with
          | none => simp [h0, h1, h2] at h
          | some q =>
              obtain ⟨c, hc, hu⟩ := capWord_upper r1 q h2
              exact ⟨c, litCS_rest_subset lit l r0 h0 c
                (wsPlusC_rest_subset r0 wc r1 h1 c hc), hu⟩

theorem findAllCaps_eq_nil (p : List Char → Option (String × List Char))
    (hp : ∀ l q, p l = some q → ∃ c ∈ l, c.isUpper = true) :
    ∀ (fuel : Nat) (l : List Char), (∀ c ∈ l, c.isUpper = false) →
      findAllCaps p fuel l = [] := by
  intro fuel
  induction fuel with
  | zero => intro l _; rfl
  | succ n ih =>
      intro l h
      have hnone : p l = none := by
        cases hpl : p l with
        | none => rfl
        | some q =>
            obtain ⟨c, hc, hu⟩ := hp l q hpl
            rw [h c hc] at hu
            cases hu
      cases l with
      | nil => simp [findAllCaps, hnone]
      | cons a t =>
          simp only [findAllCaps, hnone]
          exact ih t (fun c hc => h c (List.mem_cons_of_mem a hc))

/-- C9: on a text with no uppercase letters — which is every text
`_basic_analysis` passes, since it lowercases title, summary and content
before extraction — `_extract_companies` returns exactly the title-cased
known companies occurring as substrings: the four capitalized-word regex
patterns, applied without `re.IGNORECASE`, require an uppercase letter and
contribute no matches. -/
theorem C9_companies_on_lowercase_text (text : String)
    (h : ∀ c ∈ text.data, c.isUpper = false) (s : String) :
    s ∈ _extract_companies text ↔
      s ∈ (important_companies.filter (fun c => inText c text)).map pyTitle := by
  have h1 := findAllCaps_eq_nil company_pattern1
    (fun l q hq => pc12At_upper _ l q hq) (text.data.length + 1) text.data h
  have h2 := findAllCaps_eq_nil company_pattern2
    (fun l q hq => pc12At_upper _ l q hq) (text.data.length + 1) text.data h
  have h3 := findAllCaps_eq_nil company_pattern3
    (fun l q hq => pcPrefixAt_upper _ l q hq) (text.data.length + 1) text.data h
  have h4 := findAllCaps_eq_nil company_pattern4
    (fun l q hq => pcPrefixAt_upper _ l q hq) (text.data.length + 1) text.data h
  unfold _extract_companies
  rw [h1, h2, h3, h4]
  simp [List.mem_dedup]

/-- C9 witness: the theorem applied to a concrete all-lowercase text in
which the known company `"openai"` occurs next to the regex trigger words
`"startup"` and `"raised"`: the only company returned is the title-cased
known hit. -/
theorem C9_companies_witness :
    (∀ c ∈ ("startup openai raised big funding").data, c.isUpper = false) ∧
    ("Openai" ∈ _extract_companies "startup openai raised big funding" ↔
      "Openai" ∈ (important_companies.filter
        (fun c => inText c "startup openai raised big funding")).map pyTitle) :=
  ⟨by decide, C9_companies_on_lowercase_text "startup openai raised big funding"
    (by decide) "Openai"⟩

/-! ### Claim C4 -/

theorem dedupGo_sublist : ∀ (l : List RawItem) (su st : List String),
    (dedupGo su st l).Sublist l := by
  intro l
  induction l with
  | nil => intro su st; simp [dedupGo]
  | cons n rest ih =>
      intro su st
      simp only [dedupGo]
      by_cases hg : n.link ∉ su ∧ normTitle n.title ∉ st
      · rw [if_pos hg]
        exact List.Sublist.cons₂ n (ih _ _)
      · rw [if_neg hg]
        exact List.Sublist.cons n (ih su st)

theorem dedupGo_link_not_seen : ∀ (l : List RawItem) (su st : List String),
    ∀ x ∈ dedupGo su st l, x.link ∉ su := by
  intro l
  induction l with
  | nil => intro su st x hx; simp [dedupGo] at hx
  | cons n rest ih =>
      intro su st x hx
      simp only [dedupGo] at hx
      by_cases hg : n.link ∉ su ∧ normTitle n.title ∉ st
      · rw [if_pos hg] at hx
        rcases List.mem_cons.mp hx with he | hx2
        · subst he; exact hg.1
        · intro hsu
          exact ih _ _ x hx2 (List.mem_cons_of_mem _ hsu)
      · rw [if_neg hg] at hx
        exact ih su st x hx

theorem dedupGo_title_not_seen : ∀ (l : List RawItem) (su st : List String),
    ∀ x ∈ dedupGo su st l, normTitle x.title ∉ st := by
  intro l
  induction l with
  | nil => intro su st x hx; simp [dedupGo] at hx
  | cons n rest ih =>
      intro su st x hx
      simp only [dedupGo] at hx
      by_cases hg : n.link ∉ su ∧ normTitle n.title ∉ st
      · rw [if_pos hg] at hx
        rcases List.mem_cons.mp hx with he | hx2
        · subst he; exact hg.2
        · intro hst
          exact ih _ _ x hx2 (List.mem_cons_of_mem _ hst)
      · rw [if_neg hg] at hx
        exact ih su st x hx

theorem dedupGo_links_nodup : ∀ (l : List RawItem) (su st : List String),
    ((dedupGo su st l).map RawItem.link).Nodup := by
  intro l
  induction l with
  | nil => intro su st; simp [dedupGo]
  | cons n rest ih =>
      intro su st
      simp only [dedupGo]
      by_cases hg : n.link ∉ su ∧ normTitle n.title ∉ st
      · rw [if_pos hg]
        simp only [List.map_cons, List.nodup_cons]
        refine ⟨fun hmem => ?_, ih _ _⟩
        obtain ⟨x, hx, hlx⟩ := List.mem_map.mp hmem
        exact dedupGo_link_not_seen rest _ _ x hx (hlx ▸ List.mem_cons_self _ _)
      · rw [if_neg hg]
        exact ih su st

theorem dedupGo_titles_nodup : ∀ (l : List RawItem) (su st : List String),
    ((dedupGo su st l).map (fun x => normTitle x.title)).Nodup := by
  intro l
  induction l with
  | nil => intro su st; simp [dedupGo]
  | cons n rest ih =>
      intro su st
      simp only [dedupGo]
      by_cases hg : n.link ∉ su ∧ normTitle n.title ∉ st
      · rw [if_pos hg]
        simp only [List.map_cons, List.nodup_cons]
        refine ⟨fun hmem => ?_, ih _ _⟩
        obtain ⟨x, hx, hlx⟩ := List.mem_map.mp hmem
        exact dedupGo_title_not_seen rest _ _ x hx (hlx ▸ List.mem_cons_self _ _)
      · rw [if_neg hg]
        exact ih su st

/-- C4 counterexample: in the batch `[⟨"Dup","L1"⟩, ⟨"Dup","L2"⟩,
⟨"Other","L2"⟩]` the second item is dropped by title collision, and —
because only KEPT items' keys are recorded in the seen sets — the third
item survives although its exact link `"L2"` already occurred earlier in
the batch; of the two items with identical link `"L2"` and different
titles the survivor is the LAST encountered, refuting both halves of the
claim. -/
theorem C4_counterexample :
    _deduplicate_news
        [⟨"Dup", "L1", "first", none⟩, ⟨"Dup", "L2", "second", none⟩,
         ⟨"Other", "L2", "third", none⟩] =
      [⟨"Dup", "L1", "first", none⟩, ⟨"Other", "L2", "third", none⟩] ∧
    RawItem.link ⟨"Dup", "L2", "second", none⟩ =
      RawItem.link ⟨"Other", "L2", "third", none⟩ := by
  constructor <;> decide

/-- C4 amended: `_deduplicate_news` preserves first-seen order (the output
is a sublist of the input) and keeps an item exactly when its exact link
and its normalized (lower-cased, trimmed) title both differ from those of
all previously KEPT items — a dropped item's keys are not recorded.
Consequently no two surviving items share a link or a normalized title (so
of several items with identical link at most one survives), and in a batch
of exactly two items with identical link the first one survives; but when
an earlier identical-link item was itself dropped (e.g. by a title
collision) the survivor need not be the first encountered. -/
theorem C4_dedup_amended :
    (∀ l : List RawItem,
      (_deduplicate_news l).Sublist l ∧
      ((_deduplicate_news l).map RawItem.link).Nodup ∧
      ((_deduplicate_news l).map (fun x => normTitle x.title)).Nodup) ∧
    (∀ a b : RawItem, b.link = a.link → _deduplicate_news [a, b] = [a]) := by
  refine ⟨fun l => ⟨dedupGo_sublist l [] [], dedupGo_links_nodup l [] [],
    dedupGo_titles_nodup l [] []⟩, fun a b h => ?_⟩
  simp [_deduplicate_news, dedupGo, h]

/-- C4 witness: the amended two-item property applied to two concrete
items with identical link and different titles: the first survives. -/
theorem C4_dedup_amended_witness :
    _deduplicate_news [⟨"One", "L", "x", none⟩, ⟨"Two", "L", "y", none⟩] =
      [⟨"One", "L", "x", none⟩] :=
  C4_dedup_amended.2 ⟨"One", "L", "x", none⟩ ⟨"Two", "L", "y", none⟩ (by decide)

/-! ### Claim C10 -/

/-- C10: every fetch cycle returns at most `MAX_NEWS_PER_FETCH = 50`
items: after merging the per-source results, deduplicating and sorting by
`published_date` descending, the list is truncated to its first 50
elements, so the output is a prefix of the sorted list (hence the 50 most
recent survive), its length is `min 50 n` where `n` is the number of
distinct items, it is itself sorted descending, and it only contains
deduplicated merged items — items beyond the 50 most recent are silently
discarded. -/
theorem C10_fetch_caps_at_50 :
    MAX_NEWS_PER_FETCH = 50 ∧
    ∀ results : List (List RawItem),
      (fetch_all_news results).length ≤ 50 ∧
      (fetch_all_news results).length =
        min MAX_NEWS_PER_FETCH (sorted_deduped results).length ∧
      fetch_all_news results <+: sorted_deduped results ∧
      List.Pairwise (fun a b => sortKey b ≤ sortKey a) (fetch_all_news results) ∧
      ∀ x ∈ fetch_all_news results, x ∈ _deduplicate_news results.flatten := by
  refine ⟨rfl, fun results => ⟨?_, ?_, ?_, ?_, ?_⟩⟩
  · simp [fetch_all_news, MAX_NEWS_PER_FETCH]
  · simp [fetch_all_news, List.length_take]
  · exact List.take_prefix _ _
  · have hs := List.sorted_insertionSort dateGE (_deduplicate_news results.flatten)
    exact List.Pairwise.sublist (List.take_sublist _ _) hs
  · intro x hx
    have hx2 : x ∈ sorted_deduped results :=
      (List.take_sublist _ _).subset hx
    exact (List.perm_insertionSort dateGE _).mem_iff.mp hx2

/-! ### Claim C6 -/

theorem topicsInv_congr (acc : List (String × TopicData))
    (C L : _) (C2 : String → Nat) (L2 : String → List AnItem)
    (h : topicsInv acc C L) (hC : ∀ k, C k = C2 k) (hL : ∀ k, L k = L2 k) :
    topicsInv acc C2 L2 := by
  intro k
  have h2 := h k
  rw [hC k, hL k] at h2
  exact h2

theorem findTopic_bumpTopic_self (label : String) (n : AnItem) (k : String) :
    ∀ acc, findTopic k (bumpTopic label n k acc) =
      some (match findTopic k acc with
            | none => ⟨1, label, [n]⟩
            | some d => ⟨d.count + 1, d.tcat, d.latest_news ++ [n]⟩) := by
  intro acc
  induction acc with
  | nil => simp [bumpTopic, findTopic]
  | cons p rest ih =>
      obtain ⟨k2, d⟩ := p
      by_cases hk : k = k2
      · subst hk
        simp [bumpTopic, findTopic]
      · simp [bumpTopic, findTopic, hk, ih]

theorem findTopic_bumpTopic_ne (label : String) (n : AnItem) (k k3 : String)
    (hk : k3 ≠ k) :
    ∀ acc, findTopic k3 (bumpTopic label n k acc) = findTopic k3 acc := by
  intro acc
  induction acc with
  | nil => simp [bumpTopic, findTopic, hk]
  | cons p rest ih =>
      obtain ⟨k2, d⟩ := p
      by_cases h2 : k = k2
      · subst h2
        simp [bumpTopic, findTopic, hk]
      · by_cases h3 : k3 = k2
        · subst h3
          simp [bumpTopic, findTopic, h2]
        · simp [bumpTopic, findTopic, h2, h3, ih]

theorem bumpTopic_inv (label : String) (n : AnItem) (k : String)
    (acc : List (String × TopicData)) (C : String → Nat)
    (L : String → List AnItem) (h : topicsInv acc C L) :
    topicsInv (bumpTopic label n k acc)
      (fun k2 => C k2 + (if k2 = k then 1 else 0))
      (fun k2 => L k2 ++ (if k2 = k then [n] else [])) := by
  intro k2
  by_cases hk : k2 = k
  · subst hk
    rw [findTopic_bumpTopic_self]
    have h2 := h k2
    cases hft : findTopic k2 acc with
    | none => rw [hft] at h2; simp [h2.1, h2.2]
    | some d => rw [hft] at h2; simp [h2.1, h2.2]
  · rw [findTopic_bumpTopic_ne label n k k2 hk]
    have h2 := h k2
    cases hft : findTopic k2 acc with
    | none => rw [hft] at h2; simp [hk, h2.1, h2.2]
    | some d => rw [hft] at h2; simp [hk, h2.1, h2.2]

theorem foldBump_inv (n : AnItem) :
    ∀ (cs : List String) (acc : List (String × TopicData))
      (C : String → Nat) (L : String → List AnItem), topicsInv acc C L →
      topicsInv (cs.foldl (fun a c => bumpTopic "company" n c a) acc)
        (fun k => C k + cs.count k)
        (fun k => L k ++ List.replicate (cs.count k) n) := by
  intro cs
  induction cs with
  | nil =>
      intro acc C L h
      exact topicsInv_congr acc C L _ _ h (fun k => by simp) (fun k => by simp)
  | cons c cs ih =>
      intro acc C L h
      simp only [List.foldl_cons]
      have h1 := bumpTopic_inv "company" n c acc C L h
      have h2 := ih _ _ _ h1
      refine topicsInv_congr _ _ _ _ _ h2 (fun k => ?_) (fun k => ?_)
      · rw [List.count_cons]
        by_cases hk : k = c
        · subst hk; simp; omega
        · have hbeq : (c == k) = false := by
            simp [Ne.symm hk]
          simp [hk, hbeq]
      · rw [List.count_cons]
        by_cases hk : k = c
        · subst hk
          simp [List.append_assoc, List.replicate_succ]
        · have hbeq : (c == k) = false := by
            simp [Ne.symm hk]
          simp [hk, hbeq]

theorem itemStep_inv (n : AnItem) (acc : List (String × TopicData))
    (C : String → Nat) (L : String → List AnItem) (h : topicsInv acc C L) :
    topicsInv (itemStep acc n)
      (fun k => C k + keyMult k n)
      (fun k => L k ++ List.replicate (keyMult k n) n) := by
  unfold itemStep
  have h1 := foldBump_inv n n.companies acc C L h
  have h2 := bumpTopic_inv "topic" n ("category_" ++ n.category) _ _ _ h1
  refine topicsInv_congr _ _ _ _ _ h2 (fun k => ?_) (fun k => ?_)
  · unfold keyMult
    by_cases hk : k = "category_" ++ n.category
    · subst hk; simp; omega
    · simp [hk, Ne.symm hk]
  · unfold keyMult
    by_cases hk : k = "category_" ++ n.category
    · subst hk
      have hr : List.replicate (List.count ("category_" ++ n.category) n.companies) n ++ [n]
          = List.replicate (List.count ("category_" ++ n.category) n.companies + 1) n :=
        (List.replicate_succ' _ _).symm
      simp [List.append_assoc, hr]
    · simp [hk, Ne.symm hk]

theorem foldItems_inv :
    ∀ (l : List AnItem) (acc : List (String × TopicData))
      (C : String → Nat) (L : String → List AnItem), topicsInv acc C L →
      topicsInv (l.foldl itemStep acc)
        (fun k => C k + keyCount k l) (fun k => L k ++ contribList k l) := by
  intro l
  induction l with
  | nil =>
      intro acc C L h
      exact topicsInv_congr acc C L _ _ h (fun k => by simp [keyCount])
        (fun k => by simp [contribList])
  | cons m rest ih =>
      intro acc C L h
      simp only [List.foldl_cons]
      have h1 := itemStep_inv m acc C L h
      have h2 := ih _ _ _ h1
      refine topicsInv_congr _ _ _ _ _ h2 (fun k => ?_) (fun k => ?_)
      · simp [keyCount]
        omega
      · simp [contribList, List.flatMap_cons, List.append_assoc]

theorem collectTopics_inv (l : List AnItem) :
    topicsInv (collectTopics l) (fun k => keyCount k l) (fun k => contribList k l) := by
  have h0 : topicsInv [] (fun _ => 0) (fun _ => []) := by
    intro k; simp [findTopic]
  have h := foldItems_inv l [] _ _ h0
  exact topicsInv_congr _ _ _ _ _ h (fun k => by simp) (fun k => by simp)

theorem bumpTopic_keys (label : String) (n : AnItem) (k : String) :
    ∀ acc, (bumpTopic label n k acc).map Prod.fst =
      if k ∈ acc.map Prod.fst then acc.map Prod.fst
      else acc.map Prod.fst ++ [k] := by
  intro acc
  induction acc with
  | nil => simp [bumpTopic]
  | cons p rest ih =>
      obtain ⟨k2, d⟩ := p
      by_cases hk : k = k2
      · subst hk; simp [bumpTopic]
      · simp only [bumpTopic, if_neg hk, List.map_cons, List.mem_cons, ih]
        by_cases hm : k ∈ rest.map Prod.fst
        · simp [hm, hk]
        · simp [hm, hk]

theorem bumpTopic_keys_nodup (label : String) (n : AnItem) (k : String)
    (acc : List (String × TopicData)) (h : (acc.map Prod.fst).Nodup) :
    ((bumpTopic label n k acc).map Prod.fst).Nodup := by
  rw [bumpTopic_keys]
  by_cases hm : k ∈ acc.map Prod.fst
  · simpa [hm] using h
  · rw [if_neg hm]
    rw [List.nodup_append]
    exact ⟨h, List.nodup_singleton k,
      fun a ha hak => hm ((List.mem_singleton.mp hak) ▸ ha)⟩

theorem foldBump_keys_nodup (n : AnItem) :
    ∀ (cs : List String) (acc : List (String × TopicData)),
      (acc.map Prod.fst).Nodup →
      (((cs.foldl (fun a c => bumpTopic "company" n c a) acc)).map Prod.fst).Nodup := by
  intro cs
  induction cs with
  | nil => intro acc h; simpa using h
  | cons c cs ih =>
      intro acc h
      simp only [List.foldl_cons]
      exact ih _ (bumpTopic_keys_nodup "company" n c acc h)

theorem collectTopics_keys_nodup (l : List AnItem) :
    ((collectTopics l).map Prod.fst).Nodup := by
  have hgen : ∀ (ml : List AnItem) (acc : List (String × TopicData)),
      (acc.map Prod.fst).Nodup → ((ml.foldl itemStep acc).map Prod.fst).Nodup := by
    intro ml
    induction ml with
    | nil => intro acc h; simpa using h
    | cons m rest ih =>
        intro acc h
        simp only [List.foldl_cons]
        refine ih _ ?_
        unfold itemStep
        exact bumpTopic_keys_nodup "topic" m _ _ (foldBump_keys_nodup m m.companies acc h)
  simpa using hgen l [] (by simp)

theorem findTopic_of_mem (acc : List (String × TopicData))
    (hnd : (acc.map Prod.fst).Nodup) (p : String × TopicData) (hp : p ∈ acc) :
    findTopic p.1 acc = some p.2 := by
  induction acc with
  | nil => cases hp
  | cons q rest ih =>
      obtain ⟨k2, d⟩ := q
      simp only [List.map_cons, List.nodup_cons] at hnd
      rcases List.mem_cons.mp hp with he | hm
      · subst he
        simp [findTopic]
      · have hne : p.1 ≠ k2 := by
          intro he
          exact hnd.1 (he ▸ List.mem_map_of_mem Prod.fst hm)
        simp only [findTopic, if_neg hne]
        exact ih hnd.2 hm

/-- C6 counterexample: on a batch ordered oldest-first (dates 0,1,2,3, all
four items mentioning OpenAI), the carried `latest_news[:3]` are the FIRST
three contributing items — dates 0, 1, 2 — while the most recent
contributing item (date 3, present in the batch) is absent, refuting
"each carrying up to 3 most-recent contributing items" for arbitrary
batches. -/
theorem C6_counterexample :
    (get_trending_topics oldFirstBatch).map
        (fun t => (t.topic, t.latest_news.map AnItem.published_date)) =
      [("OpenAI", [some 0, some 1, some 2]),
       ("category_general", [some 0, some 1, some 2])] ∧
    oldFirstBatch.map AnItem.published_date = [some 0, some 1, some 2, some 3] := by
  constructor <;> decide

/-- C6 amended: `get_trending_topics` counts one increment per item for
each extracted company name and for the synthetic key
`category_<category>`; every output topic has count ≥ 2 and its count
equals its total number of increments over the batch; the output is sorted
by count descending and truncated to the top 10; and each topic carries up
to 3 contributing items — the FIRST three in batch order
(`latest_news[:3]`), which are the most recent ones only when the batch is
ordered newest-first, as the fetch pipeline produces.  In particular,
given 3 items all mentioning "OpenAI" and no other company (plus one item
mentioning a company only once), the output includes the topic "OpenAI"
with count 3, and the once-mentioned company is excluded. -/
theorem C6_trending_amended :
    (∀ (l : List AnItem) (t : Trend), t ∈ get_trending_topics l →
      2 ≤ t.count ∧ t.count = keyCount t.topic l ∧
      t.latest_news = (contribList t.topic l).take 3) ∧
    (∀ l : List AnItem, (get_trending_topics l).length ≤ 10 ∧
      List.Pairwise (fun a b : Trend => b.count ≤ a.count) (get_trending_topics l)) ∧
    (get_trending_topics demoBatch).map (fun t => (t.topic, t.count)) =
      [("category_general", 4), ("OpenAI", 3)] ∧
    (∀ t ∈ get_trending_topics demoBatch, t.topic ≠ "Solo") := by
  refine ⟨?_, ?_, by decide, by decide⟩
  · intro l t ht
    simp only [get_trending_topics] at ht
    have ht2 := (List.perm_insertionSort countGE _).mem_iff.mp
      ((List.take_sublist _ _).subset ht)
    obtain ⟨p, hpfil, hpt⟩ := List.mem_map.mp ht2
    have hpmem : p ∈ collectTopics l := List.mem_of_mem_filter hpfil
    have hpcnt : 2 ≤ p.2.count := by
      have := (List.mem_filter.mp hpfil).2
      simpa using this
    have hft := findTopic_of_mem _ (collectTopics_keys_nodup l) p hpmem
    have hinv := collectTopics_inv l p.1
    rw [hft] at hinv
    rw [← hpt]
    exact ⟨hpcnt, hinv.1, by rw [hinv.2]⟩
  · intro l
    constructor
    · simp only [get_trending_topics, List.length_take]
      omega
    · have hs := List.sorted_insertionSort countGE
        (((collectTopics l).filter (fun p => 2 ≤ p.2.count)).map
          (fun p => ⟨p.1, p.2.count, p.2.tcat, p.2.latest_news.take 3⟩))
      exact List.Pairwise.sublist (List.take_sublist _ _) hs

/-- C6 witness: the amended per-topic property applied at the concrete
scenario batch and its "OpenAI" topic: count 3 equals the total number of
OpenAI increments, and the carried items are the first three contributors. -/
theorem C6_trending_amended_witness :
    2 ≤ (Trend.mk "OpenAI" 3 "company"
        [⟨"n1", some 1, ["OpenAI"], "general"⟩, ⟨"n2", some 2, ["OpenAI"], "general"⟩,
         ⟨"n3", some 3, ["OpenAI"], "general"⟩]).count ∧
    (Trend.mk "OpenAI" 3 "company"
        [⟨"n1", some 1, ["OpenAI"], "general"⟩, ⟨"n2", some 2, ["OpenAI"], "general"⟩,
         ⟨"n3", some 3, ["OpenAI"], "general"⟩]).count = keyCount "OpenAI" demoBatch ∧
    (Trend.mk "OpenAI" 3 "company"
        [⟨"n1", some 1, ["OpenAI"], "general"⟩, ⟨"n2", some 2, ["OpenAI"], "general"⟩,
         ⟨"n3", some 3, ["OpenAI"], "general"⟩]).latest_news =
      (contribList "OpenAI" demoBatch).take 3 :=
  C6_trending_amended.1 demoBatch
    (Trend.mk "OpenAI" 3 "company"
      [⟨"n1", some 1, ["OpenAI"], "general"⟩, ⟨"n2", some 2, ["OpenAI"], "general"⟩,
       ⟨"n3", some 3, ["OpenAI"], "general"⟩]) (by decide)

/-! ### Claim C8 -/

theorem analyze_news_batch_eq_map :
    ∀ jobs : List (ItemOutcome × NewsDoc),
      analyze_news_batch jobs = jobs.map (fun q => analyze_single_news q.1 q.2) := by
  have H : ∀ (m : Nat) (jobs : List (ItemOutcome × NewsDoc)), jobs.length ≤ m →
      analyze_news_batch jobs = jobs.map (fun q => analyze_single_news q.1 q.2) := by
    intro m
    induction m with
    | zero =>
        intro jobs h
        have : jobs = [] := List.eq_nil_of_length_eq_zero (Nat.le_zero.mp h)
        subst this
        simp [analyze_news_batch]
    | succ m ih =>
        intro jobs h
        match jobs with
        | [] => simp [analyze_news_batch]
        | j :: rest =>
            rw [analyze_news_batch]
            rw [ih ((j :: rest).drop 5) (by simp at h ⊢; omega)]
            conv_rhs => rw [← List.take_append_drop 5 (j :: rest)]
            rw [List.map_append]
  exact fun jobs => H jobs.length jobs le_rfl

/-- C8: in `analyze_news_batch` a failure while analyzing one item never
aborts sibling items in the same group of 5 or the batch: the batch result
is exactly one result per input item, in order, each depending only on its
own item and outcome (first and third conjuncts); an enrichment failure
degrades the item to local-only scoring, identical to the no-LLM path,
which is the locally scored analysis with the default market impact 3
(fourth and fifth conjuncts); and an item whose analysis itself raised is
still returned as the bare input item (last conjunct). -/
theorem C8_batch_failure_isolation :
    (∀ jobs : List (ItemOutcome × NewsDoc),
      analyze_news_batch jobs = jobs.map (fun q => analyze_single_news q.1 q.2)) ∧
    (∀ jobs : List (ItemOutcome × NewsDoc),
      (analyze_news_batch jobs).length = jobs.length) ∧
    (∀ (jobs : List (ItemOutcome × NewsDoc)) (i : Nat),
      (analyze_news_batch jobs)[i]? =
        (jobs[i]?).map (fun q => analyze_single_news q.1 q.2)) ∧
    (∀ news : NewsDoc,
      analyze_single_news (.runs .failure) news =
        analyze_single_news (.runs .noClient) news) ∧
    (∀ news : NewsDoc,
      analyze_single_news (.runs .failure) news =
        (news, some { _basic_analysis news with
          overall_score := some (_calculate_overall_score
            (_basic_analysis news).relevance_score
            (_basic_analysis news).importance_score 3) })) ∧
    (∀ news : NewsDoc, analyze_single_news .localError news = (news, none)) := by
  refine ⟨analyze_news_batch_eq_map, ?_, ?_, fun news => rfl, fun news => rfl,
    fun news => rfl⟩
  · intro jobs
    rw [analyze_news_batch_eq_map]
    simp
  · intro jobs i
    rw [analyze_news_batch_eq_map]
    simp

/-- C10 witness: the membership conjunct applied at a one-source,
one-item fetch: the single fetched item is in the output and in the
deduplicated merge. -/
theorem C10_fetch_caps_witness :
    (⟨"t", "l", "s", some 0⟩ : RawItem) ∈
      _deduplicate_news ([[(⟨"t", "l", "s", some 0⟩ : RawItem)]]).flatten :=
  (C10_fetch_caps_at_50.2 [[⟨"t", "l", "s", some 0⟩]]).2.2.2.2
    ⟨"t", "l", "s", some 0⟩ (by decide)
